import Mathlib

/-!
Shallow embedding of the qlaser_zcu host-side controller
(`qlaser_zcu/constants.py`, `qlaser_zcu/qlaser_fpga.py`, `qlaser_zcu/genwave.py`).

Modelling conventions:
* Python integers are arbitrary-precision two's-complement, so `n & (2^k - 1)`
  equals `n % 2^k` (Lean's `Int.emod`, nonnegative result), `n >> k` on a
  nonnegative value equals `n / 2^k`, and `x | y` equals `x + y` whenever the
  set bits of `x` and `y` are disjoint (as in `(g & 0xFFFF) << 16 | (a & 0xFFFF)`).
* Python floats are modelled as rationals; `int(q)` truncates toward zero.
* Register values travelling over the serial link are the decimal rendering of
  nonnegative integers; they are modelled as the integers themselves.
-/

namespace Qlaser

/-! ### Constants (constants.py) -/

def C_LENGTH_WAVEFORM : ℕ := 4096

def C_NUM_WAVEFORM : ℕ := 256

def C_BITS_ADDR_WAVE : ℕ := 16

def C_BITS_GAIN_FACTOR : ℕ := 16

def C_MAX_CHANNELS : ℕ := 32

def BIT_FRAC : ℕ := 8

def BIT_FRAC_GAIN : ℕ := C_BITS_GAIN_FACTOR - 1

def PULSE_START_MIN : ℤ := 5

def DAC_BITS_RES : ℕ := 12

def VREF_INTERNAL : String := "internal"

def VREF_EXTERNAL : String := "external"

def VOLTAGE_REF : ℚ := 5 / 4

/-! ### Python primitives -/

/-- Python `int(q)` on a float/rational: truncation toward zero. -/
def pyInt (q : ℚ) : ℤ := if q < 0 then -⌊-q⌋ else ⌊q⌋

theorem pyInt_of_nonneg {q : ℚ} (h : 0 ≤ q) : pyInt q = ⌊q⌋ := by
  rw [pyInt, if_neg (not_lt.2 h)]

/-! ### Protocol codec: register writes (qlaser_fpga.py) -/

/-- One call `xil_out32(addr, data, cmd)`: a staged register write.
The block-select command byte is constant per call site and not modelled. -/
structure RegWrite where
  addr : ℤ
  data : ℤ
  deriving DecidableEq

/-- The decimal payload serialized by `xil_out32`:
`((addr & 0xFFFF) << 32) | (data & 0xFFFFFFFF)` (disjoint bit ranges). -/
def xil_out32_frame (r : RegWrite) : ℤ :=
  (r.addr % 2 ^ 16) * 2 ^ 32 + r.data % 2 ^ 32

/-- The 32-bit value the FPGA register receives from a write. -/
def regValue (r : RegWrite) : ℕ := (r.data % 2 ^ 32).toNat

/-- `QlaserFPGA.entry_pulse_defn` with an explicit entry index: the four
register writes it performs, in order.  Follows the source line by line:
fixed-point conversion by `int(...)`, the entry-0 start-time substitution,
then the four `xil_out32` calls with `n_waddr` incremented between them. -/
def entry_pulse_defn (n_entry n_wave n_start_time : ℤ)
    (n_scale_gain n_scale_addr : ℚ) (n_flattop : ℤ) : List RegWrite :=
  let g : ℤ := pyInt (n_scale_gain * 2 ^ BIT_FRAC_GAIN)
  let a : ℤ := pyInt (n_scale_addr * 2 ^ BIT_FRAC)
  let t : ℤ :=
    if n_start_time < PULSE_START_MIN ∧ n_entry = 0 then PULSE_START_MIN
    else n_start_time
  let waddr0 : ℤ := 4 * n_entry
  [⟨waddr0, t % 2 ^ 24⟩,
   ⟨waddr0 + 1, n_wave⟩,
   ⟨waddr0 + 1 + 1, (g % 2 ^ 16) * 2 ^ 16 + a % 2 ^ 16⟩,
   ⟨waddr0 + 1 + 1 + 1, n_flattop % 2 ^ 17⟩]

/-- Decoded pulse parameters (`PulseConfig` TypedDict). -/
structure PulseConfig where
  wave_id : ℕ
  start_time : ℕ
  scale_gain : ℚ
  scale_addr : ℚ
  sustain : ℕ
  deriving DecidableEq

/-- The decoding `QlaserFPGA.read_pulse_defn` applies to one quadruple of
32-bit register values starting at index `i` of the response list. -/
def decode_pulse_defn (values : List ℕ) (i : ℕ) : PulseConfig :=
  ⟨values.getD (i + 1) 0,
   values.getD i 0 % 2 ^ 24,
   ((values.getD (i + 2) 0 / 2 ^ 16) % 2 ^ 16 : ℕ) / (2 ^ BIT_FRAC_GAIN : ℚ),
   (values.getD (i + 2) 0 % 2 ^ 16 : ℕ) / (2 ^ BIT_FRAC : ℚ),
   values.getD (i + 3) 0 % 2 ^ 17⟩

/-! ### Channel selection (`QlaserFPGA.chan_sel`) -/

/-- Result of `chan_sel`: whether the out-of-range branch fired (an error is
logged and the channel reset to 0), and the decimal payload `1 << channel`
that is written to the link afterwards in every case. -/
structure ChanSelResult where
  out_of_range : Bool
  sent : ℤ
  deriving DecidableEq

def chan_sel (channel : ℤ) : ChanSelResult :=
  let invalid : Bool := decide (channel > (C_MAX_CHANNELS : ℤ) ∨ channel < 0)
  let ch : ℤ := if invalid then 0 else channel
  ⟨invalid, 2 ^ ch.toNat⟩

/-! ### Waveform table writes (`QlaserFPGA.write_wave_table`) -/

/-- One call `write_waves(addr, val16_lo, val16_up)`. -/
structure WavePairWrite where
  addr : ℤ
  val16_lo : ℤ
  val16_up : ℤ
  deriving DecidableEq

/-- Result of `write_wave_table`: the `write_waves` calls performed and the
Python return value (`None` on the odd-address error path). -/
structure WriteWaveTableResult where
  writes : List WavePairWrite
  ret : Option ℤ
  deriving DecidableEq

/-- `QlaserFPGA.write_wave_table(start_addr, values)`.  The loop
`for i in range(start_addr, start_addr + len(values) - 1, 2)` performs
`⌊len/2⌋` paired writes; an odd-length list gets a final `(last, 0)` write.
Returns `(len(values) << 16) + (start_addr & 0x0FFF)`. -/
def write_wave_table (start_addr : ℤ) (values : List ℤ) : WriteWaveTableResult :=
  if start_addr % 2 ≠ 0 then ⟨[], none⟩
  else
    let n : ℕ := values.length
    let pairs : List WavePairWrite :=
      (List.range (n / 2)).map fun (k : ℕ) =>
        ⟨start_addr + 2 * (k : ℤ), values.getD (2 * k) 0, values.getD (2 * k + 1) 0⟩
    let writes : List WavePairWrite :=
      if n % 2 = 1 then pairs ++ [⟨start_addr + n - 1, values.getD (n - 1) 0, 0⟩]
      else pairs
    ⟨writes, some ((n : ℤ) * 2 ^ 16 + start_addr % 2 ^ 12)⟩

/-! ### Channel error decoding (`QlaserFPGA.read_errs`) -/

/-- The channels `read_errs` reports for one 32-bit error bitmask `v`:
the code walks the 32-character binary string of `v` (most significant bit
first, string index `j` is bit `31 - j` for `v < 2^32`) and reports channel
`C_MAX_CHANNELS - j - 1` for every `'1'` character. -/
def err_channels (v : ℕ) : List ℕ :=
  (List.range C_MAX_CHANNELS).filterMap fun j =>
    if v.testBit (C_MAX_CHANNELS - 1 - j) then some (C_MAX_CHANNELS - 1 - j)
    else none

/-- Result of `read_errs` on a decoded kind→bitmask mapping: the
`(kind, channel)` error reports logged, the violation counter `cnt_err`,
and the Python return value (the function has no `return` statement). -/
structure ReadErrsResult where
  reports : List (String × ℕ)
  cnt_err : ℕ
  ret : Option ℕ

def read_errs (erros : List (String × ℕ)) : ReadErrsResult :=
  ⟨erros.flatMap fun kv => (err_channels kv.2).map fun c => (kv.1, c),
   (erros.map fun kv => (err_channels kv.2).length).sum,
   none⟩

/-! ### Waveform synthesis (genwave.py) -/

/-- `poly_gen_numpy(degrees, time, coeff)` with `degrees = len(coeff)`:
`(Σ_{k=1..d} coeff[k-1]·time^k) / (d+1) · 2^(C_BITS_ADDR_WAVE-1)`. -/
def poly_gen (coeff : List ℚ) (time : ℚ) : ℚ :=
  let degrees : ℕ := coeff.length
  let poly_sum : ℚ :=
    ((List.range degrees).map fun k => coeff.getD k 0 * time ^ (k + 1)).sum
  poly_sum / (degrees + 1) * 2 ^ (C_BITS_ADDR_WAVE - 1)

/-- The per-entry sample-table loop of `load_waves`: for `i < wave_len`
evaluate the polynomial at `i / wave_len`, truncate with `int(...)`, replace
negative values by 0, and append one trailing zero when `wave_len` is odd. -/
def build_raw_table (wave_len : ℕ) (coeffs : List ℚ) : List ℤ :=
  let base : List ℤ :=
    (List.range wave_len).map fun (i : ℕ) =>
      let nval : ℤ := pyInt (poly_gen coeffs ((i : ℚ) / (wave_len : ℚ)))
      if nval < 0 then 0 else nval
  if wave_len % 2 ≠ 0 then base ++ [0] else base

/-- `vdac_to_hex(voltage, vref, vref_type)`: clamp the voltage by the
`if/elif/elif` chain, derive the step from the reference mode, truncate
`voltage/step` with `int(...)`, and clamp the code to `2^DAC_BITS_RES - 1`. -/
def vdac_to_hex (voltage : ℚ) (vref : ℚ) (vref_type : String) : ℤ :=
  let v : ℚ :=
    if vref_type = VREF_INTERNAL ∧ voltage > 2 * vref then 2 * vref
    else if vref_type = VREF_EXTERNAL ∧ voltage > vref then vref
    else if voltage < 0 then 0
    else voltage
  let step : ℚ :=
    if vref_type = "internal" then 2 * vref / 2 ^ DAC_BITS_RES
    else vref / 2 ^ DAC_BITS_RES
  let dac_code : ℤ := pyInt (v / step)
  if dac_code > 2 ^ DAC_BITS_RES - 1 then 2 ^ DAC_BITS_RES - 1 else dac_code

/-! ### Helper lemmas -/

theorem ite_gt_eq_min (x M : ℤ) : (if x > M then M else x) = min x M := by
  rcases le_or_lt x M with h | h
  · rw [if_neg (not_lt.2 h), min_eq_left h]
  · rw [if_pos h, min_eq_right h.le]

theorem filterMap_ite_eq_map_filter {α β : Type} (p : α → Bool) (fn : α → β)
    (l : List α) :
    (l.filterMap fun j => if p j then some (fn j) else none) =
      (l.filter p).map fn := by
  induction l with
  | nil => rfl
  | cons a l ih =>
      by_cases h : p a
      · simp [List.filterMap_cons, List.filter_cons, h, ih]
      · simp [List.filterMap_cons, List.filter_cons, h, ih]

theorem length_filter_range_reflect (n : ℕ) (q : ℕ → Bool) :
    ((List.range n).filter fun j => q (n - 1 - j)).length =
      ((List.range n).filter q).length := by
  have hmap : (List.range n).reverse = (List.range n).map fun j => n - 1 - j := by
    rw [List.range_eq_range', List.reverse_range', ← List.range_eq_range']
    simp
  calc ((List.range n).filter fun j => q (n - 1 - j)).length
      = (((List.range n).map fun j => n - 1 - j).filter q).length := by
        rw [List.filter_map]
        simp [Function.comp_def, List.length_map]
    _ = ((List.range n).reverse.filter q).length := by
        rw [hmap]
    _ = ((List.range n).filter q).length := by
        rw [List.filter_reverse, List.length_reverse]

/-! ### Claims -/

/-- C4: for `startTime < PULSE_START_MIN`, `entry_pulse_defn` at entry 0
substitutes `PULSE_START_MIN`, so its first register write carries
`PULSE_START_MIN`; at any entry other than 0 the given start time is encoded
unchanged apart from the 24-bit mask. -/
theorem entry_pulse_defn_start_min (w t : ℤ) (g f : ℚ) (s : ℤ)
    (h : t < PULSE_START_MIN) :
    ((entry_pulse_defn 0 w t g f s).headD ⟨0, 0⟩).data = PULSE_START_MIN ∧
    ∀ e : ℤ, e ≠ 0 →
      ((entry_pulse_defn e w t g f s).headD ⟨0, 0⟩).data = t % 2 ^ 24 := by
  constructor
  · rw [PULSE_START_MIN] at h ⊢
    simp [entry_pulse_defn, PULSE_START_MIN, h]
  · intro e he
    simp [entry_pulse_defn, he]

theorem entry_pulse_defn_start_min_witness :
    (3 : ℤ) < PULSE_START_MIN ∧
    (((entry_pulse_defn 0 9 3 1 1 0).headD ⟨0, 0⟩).data = PULSE_START_MIN ∧
      ∀ e : ℤ, e ≠ 0 →
        ((entry_pulse_defn e 9 3 1 1 0).headD ⟨0, 0⟩).data = 3 % 2 ^ 24) :=
  ⟨by decide, entry_pulse_defn_start_min 9 3 1 1 0 (by decide)⟩

/-- C7: `write_wave_table` with an odd start address performs no
`write_waves` call and returns `None` (error path, zero bytes sent). -/
theorem write_wave_table_odd_addr (start_addr : ℤ) (values : List ℤ)
    (h : start_addr % 2 = 1) :
    (write_wave_table start_addr values).writes = [] ∧
    (write_wave_table start_addr values).ret = none := by
  rw [write_wave_table, if_pos (by omega)]
  exact ⟨rfl, rfl⟩

theorem write_wave_table_odd_addr_witness :
    (4097 : ℤ) % 2 = 1 ∧
    ((write_wave_table 4097 [1, 2]).writes = [] ∧
      (write_wave_table 4097 [1, 2]).ret = none) :=
  ⟨by decide, write_wave_table_odd_addr 4097 [1, 2] (by decide)⟩

/-- C10: for an even start address `write_wave_table` returns the handle
`(len(values) << 16) + (start_addr & 0xFFF)`; only the low 12 address bits
enter the handle (adding `2^12` to the address leaves it unchanged), and the
length field is the raw input length. -/
theorem write_wave_table_ret (start_addr : ℤ) (values : List ℤ)
    (h : start_addr % 2 = 0) :
    (write_wave_table start_addr values).ret =
      some ((values.length : ℤ) * 2 ^ 16 + start_addr % 2 ^ 12) ∧
    (write_wave_table (start_addr + 2 ^ 12) values).ret =
      (write_wave_table start_addr values).ret := by
  rw [write_wave_table, write_wave_table, if_neg (by omega), if_neg (by omega)]
  refine ⟨rfl, ?_⟩
  show some _ = some _
  congr 1
  omega

theorem write_wave_table_ret_witness :
    (4098 : ℤ) % 2 = 0 ∧
    ((write_wave_table 4098 [7]).ret = some ((1 : ℤ) * 2 ^ 16 + 4098 % 2 ^ 12) ∧
      (write_wave_table (4098 + 2 ^ 12) [7]).ret = (write_wave_table 4098 [7]).ret) :=
  ⟨by decide, write_wave_table_ret 4098 [7] (by decide)⟩

/-- C6 counterexample: channel 32 lies outside `[0, C_MAX_CHANNELS)` yet
passes `chan_sel`'s validation (the code tests `channel > C_MAX_CHANNELS`),
and channel 33, which the code does flag, still causes a select payload
(`1 << 0`) to be sent rather than failing with no bytes. -/
theorem chan_sel_claim_cex :
    (chan_sel 32).out_of_range = false ∧
    (chan_sel 33).out_of_range = true ∧ (chan_sel 33).sent = 1 := by
  refine ⟨by decide, by decide, by decide⟩

/-- C6 amended: `chan_sel` flags a channel as out of range exactly when
`channel > C_MAX_CHANNELS` or `channel < 0` (so `channel = C_MAX_CHANNELS`
passes), replaces a flagged channel by 0, and always sends the select
payload `1 << channel` afterwards. -/
theorem chan_sel_spec (channel : ℤ) :
    ((chan_sel channel).out_of_range = true ↔
      channel > (C_MAX_CHANNELS : ℤ) ∨ channel < 0) ∧
    (chan_sel channel).sent =
      2 ^ (if channel > (C_MAX_CHANNELS : ℤ) ∨ channel < 0 then 0
           else channel.toNat) := by
  unfold chan_sel
  by_cases h : channel > (C_MAX_CHANNELS : ℤ) ∨ channel < 0
  · simp [h]
  · simp [h]

/-- C3 counterexample: the bitmask `1` (`0b...0001`) makes `read_errs` report
channel 0 — not channel `C_MAX_CHANNELS - 1` as the claim states. -/
theorem err_channels_one_cex :
    err_channels 1 = [0] ∧ (C_MAX_CHANNELS - 1) ∉ err_channels 1 := by
  decide

/-- C3 amended: for a 32-bit bitmask the string reversal in `read_errs` and
the reported index `C_MAX_CHANNELS - j - 1` cancel, so bit `j` (least
significant bit = bit 0) maps to channel `j`: a channel is reported exactly
when it is below `C_MAX_CHANNELS` and its bit is set; the bitmask `1`
reports channel 0, never channel `C_MAX_CHANNELS - 1`. -/
theorem err_channels_mem (v : ℕ) (hv : v < 2 ^ 32) (c : ℕ) :
    c ∈ err_channels v ↔ c < C_MAX_CHANNELS ∧ v.testBit c = true := by
  unfold err_channels C_MAX_CHANNELS
  simp only [List.mem_filterMap, List.mem_range]
  constructor
  · rintro ⟨j, hj, hfj⟩
    by_cases hbit : v.testBit (32 - 1 - j)
    · rw [if_pos hbit] at hfj
      obtain rfl : 32 - 1 - j = c := Option.some.inj hfj
      exact ⟨by omega, hbit⟩
    · rw [if_neg hbit] at hfj
      exact absurd hfj (Option.noConfusion)
  · rintro ⟨hc, hbit⟩
    refine ⟨32 - 1 - c, by omega, ?_⟩
    rw [show 32 - 1 - (32 - 1 - c) = c by omega, if_pos hbit]

theorem err_channels_mem_witness :
    (1 : ℕ) < 2 ^ 32 ∧
    (0 ∈ err_channels 1 ↔ 0 < C_MAX_CHANNELS ∧ Nat.testBit 1 0 = true) :=
  ⟨by decide, err_channels_mem 1 (by decide) 0⟩

theorem err_channels_length (v : ℕ) :
    (err_channels v).length =
      ((List.range 32).filter fun b => v.testBit b).length := by
  unfold err_channels C_MAX_CHANNELS
  rw [filterMap_ite_eq_map_filter, List.length_map]
  exact length_filter_range_reflect 32 fun b => v.testBit b

theorem err_channels_length_eq_zero (v : ℕ) (hv : v < 2 ^ 32) :
    (err_channels v).length = 0 ↔ v = 0 := by
  rw [err_channels_length, List.length_eq_zero, List.filter_eq_nil_iff]
  constructor
  · intro h
    refine Nat.eq_of_testBit_eq fun i => ?_
    rw [Nat.zero_testBit]
    by_cases hi : i < 32
    · simpa using h i (List.mem_range.2 hi)
    · exact Nat.testBit_eq_false_of_lt
        (lt_of_lt_of_le hv (Nat.pow_le_pow_right (by norm_num) (by omega)))
  · rintro rfl i _
    simp

/-- C9 counterexample: on the mapping `{"X": 1}` the violation counter is 1,
but `read_errs` does not return it — the Python function has no `return`
statement, its value is `None`. -/
theorem read_errs_ret_cex :
    (read_errs [("X", 1)]).cnt_err = 1 ∧
    (read_errs [("X", 1)]).ret ≠ some (read_errs [("X", 1)]).cnt_err := by
  exact ⟨by decide, by decide⟩

/-- C9 amended: `read_errs` computes and logs (but returns `None` instead of
returning) the violation count: the total number of set bits summed over all
kind bitmasks, which is 0 exactly when every bitmask is 0. -/
theorem read_errs_spec (erros : List (String × ℕ))
    (h : ∀ kv ∈ erros, kv.2 < 2 ^ 32) :
    (read_errs erros).ret = none ∧
    (read_errs erros).cnt_err =
      (erros.map fun kv =>
        ((List.range C_MAX_CHANNELS).filter fun b => kv.2.testBit b).length).sum ∧
    ((read_errs erros).cnt_err = 0 ↔ ∀ kv ∈ erros, kv.2 = 0) := by
  refine ⟨rfl, ?_, ?_⟩
  · show (erros.map fun kv => (err_channels kv.2).length).sum = _
    unfold C_MAX_CHANNELS
    congr 1
    exact List.map_congr_left fun kv _ => err_channels_length kv.2
  · show (erros.map fun kv => (err_channels kv.2).length).sum = 0 ↔ _
    rw [List.sum_eq_zero_iff]
    constructor
    · intro hz kv hkv
      exact (err_channels_length_eq_zero kv.2 (h kv hkv)).1
        (hz _ (List.mem_map_of_mem _ hkv))
    · intro hz x hx
      obtain ⟨kv, hkv, rfl⟩ := List.mem_map.1 hx
      exact (err_channels_length_eq_zero kv.2 (h kv hkv)).2 (hz kv hkv)

theorem read_errs_spec_witness :
    (∀ kv ∈ [("X", (1 : ℕ))], kv.2 < 2 ^ 32) ∧
    ((read_errs [("X", 1)]).ret = none ∧
      (read_errs [("X", 1)]).cnt_err =
        ([("X", (1 : ℕ))].map fun kv =>
          ((List.range C_MAX_CHANNELS).filter fun b => kv.2.testBit b).length).sum ∧
      ((read_errs [("X", 1)]).cnt_err = 0 ↔ ∀ kv ∈ [("X", (1 : ℕ))], kv.2 = 0)) :=
  ⟨by decide, read_errs_spec [("X", 1)] (by decide)⟩

/-- C2 counterexample: at `entry_pulse_defn(0, startTime=3, wave=0, gain=1.0,
timeFactor=3/512, sustain=0)` the code writes the data `[5, 0, 0x80000001, 0]`:
the start time is substituted to `PULSE_START_MIN` (entry 0, `3 < 5`) rather
than carrying `3 & 0xFFFFFF = 3`, and the time factor is truncated
(`int(1.5) = 1`) rather than rounded (`round(1.5) = 2`), so the third write
is `0x80000001`, not `0x80000002` as the claim's formula gives. -/
theorem entry_pulse_defn_claim_cex :
    (entry_pulse_defn 0 0 3 1 (3 / 512) 0).map RegWrite.data =
      [5, 0, 2147483649, 0] ∧
    (entry_pulse_defn 0 0 3 1 (3 / 512) 0).map RegWrite.data ≠
      [3, 0, 2147483650, 0] := by
  have hg : pyInt ((1 : ℚ) * 2 ^ BIT_FRAC_GAIN) = 32768 := by
    norm_num [pyInt, BIT_FRAC_GAIN, C_BITS_GAIN_FACTOR]
  have hf : pyInt ((3 / 512 : ℚ) * 2 ^ BIT_FRAC) = 1 := by
    norm_num [pyInt, BIT_FRAC]
  have h1 : (entry_pulse_defn 0 0 3 1 (3 / 512) 0).map RegWrite.data =
      [5, 0, 2147483649, 0] := by
    simp only [entry_pulse_defn, hg, hf, PULSE_START_MIN, List.map_cons,
      List.map_nil]
    norm_num
  refine ⟨h1, ?_⟩
  rw [h1]
  decide

/-- C2 amended: `entry_pulse_defn` performs exactly four register writes, in
order, at addresses `4·entry .. 4·entry+3`, carrying the substituted start
time masked to 24 bits; the wave id; the packed
`((int(gain·2^(GAIN_BITS-1)) & 0xFFFF) << 16) | (int(timeFactor·2^FRAC_BITS) & 0xFFFF)`
with `int(...)` the truncation toward zero (not `round`); and
`sustain & 0x1FFFF`.  The start-time substitution applies only at entry 0
when `startTime < PULSE_START_MIN`. -/
theorem entry_pulse_defn_writes (e w t : ℤ) (g f : ℚ) (s : ℤ) :
    entry_pulse_defn e w t g f s =
      [⟨4 * e, (if t < PULSE_START_MIN ∧ e = 0 then PULSE_START_MIN else t) % 2 ^ 24⟩,
       ⟨4 * e + 1, w⟩,
       ⟨4 * e + 2,
        (pyInt (g * 2 ^ BIT_FRAC_GAIN) % 2 ^ 16) * 2 ^ 16
          + pyInt (f * 2 ^ BIT_FRAC) % 2 ^ 16⟩,
       ⟨4 * e + 3, s % 2 ^ 17⟩] := by
  simp only [entry_pulse_defn]
  have h2 : 4 * e + 1 + 1 = 4 * e + 2 := by ring
  have h3 : 4 * e + 2 + 1 = 4 * e + 3 := by ring
  rw [h2, h3]

/-- C5: for `waveLength ≥ 1` the synthesized table has exactly `waveLength`
entries when the length is even and `waveLength + 1` (one trailing zero)
when it is odd; every entry is nonnegative, and an entry whose truncated
polynomial value is nonnegative is kept unclamped. -/
theorem build_raw_table_spec (wave_len : ℕ) (coeffs : List ℚ)
    (h : 1 ≤ wave_len) :
    (build_raw_table wave_len coeffs).length =
      (if wave_len % 2 = 0 then wave_len else wave_len + 1) ∧
    (∀ x ∈ build_raw_table wave_len coeffs, 0 ≤ x) ∧
    (∀ i : ℕ, i < wave_len →
      0 ≤ pyInt (poly_gen coeffs ((i : ℚ) / (wave_len : ℚ))) →
      (build_raw_table wave_len coeffs).getD i 0 =
        pyInt (poly_gen coeffs ((i : ℚ) / (wave_len : ℚ)))) := by
  unfold build_raw_table
  have hlen : ((List.range wave_len).map fun (i : ℕ) =>
      let nval : ℤ := pyInt (poly_gen coeffs ((i : ℚ) / (wave_len : ℚ)))
      if nval < 0 then 0 else nval).length = wave_len := by
    rw [List.length_map, List.length_range]
  have hmem : ∀ x ∈ (List.range wave_len).map fun (i : ℕ) =>
      let nval : ℤ := pyInt (poly_gen coeffs ((i : ℚ) / (wave_len : ℚ)))
      if nval < 0 then 0 else nval, 0 ≤ x := by
    intro x hx
    obtain ⟨i, -, rfl⟩ := List.mem_map.1 hx
    dsimp only
    split
    · exact le_rfl
    · omega
  have hget : ∀ i : ℕ, i < wave_len →
      0 ≤ pyInt (poly_gen coeffs ((i : ℚ) / (wave_len : ℚ))) →
      (((List.range wave_len).map fun (i : ℕ) =>
        let nval : ℤ := pyInt (poly_gen coeffs ((i : ℚ) / (wave_len : ℚ)))
        if nval < 0 then 0 else nval).getD i 0) =
          pyInt (poly_gen coeffs ((i : ℚ) / (wave_len : ℚ))) := by
    intro i hi hnn
    rw [List.getD_eq_getElem _ _ (by rw [hlen]; exact hi)]
    simp only [List.getElem_map, List.getElem_range]
    rw [if_neg (not_lt.2 hnn)]
  by_cases hpar : wave_len % 2 = 0
  · rw [if_neg (by omega), if_pos hpar]
    exact ⟨hlen, hmem, fun i hi hnn => hget i hi hnn⟩
  · rw [if_pos (by omega), if_neg hpar]
    refine ⟨?_, ?_, ?_⟩
    · rw [List.length_append, hlen, List.length_singleton]
    · intro x hx
      rcases List.mem_append.1 hx with hx | hx
      · exact hmem x hx
      · rw [List.mem_singleton] at hx
        omega
    · intro i hi hnn
      rw [List.getD_append _ _ _ _ (by rw [hlen]; exact hi)]
      exact hget i hi hnn

theorem build_raw_table_spec_witness :
    1 ≤ 3 ∧
    ((build_raw_table 3 [1]).length = (if 3 % 2 = 0 then 3 else 3 + 1) ∧
      (∀ x ∈ build_raw_table 3 [1], 0 ≤ x) ∧
      (∀ i : ℕ, i < 3 →
        0 ≤ pyInt (poly_gen [1] ((i : ℚ) / (3 : ℚ))) →
        (build_raw_table 3 [1]).getD i 0 =
          pyInt (poly_gen [1] ((i : ℚ) / (3 : ℚ))))) :=
  ⟨by decide, build_raw_table_spec 3 [1] (by decide)⟩

theorem vdac_branch (v' step : ℚ) (hv : 0 ≤ v') (hs : 0 < step) :
    (if pyInt (v' / step) > 2 ^ DAC_BITS_RES - 1 then 2 ^ DAC_BITS_RES - 1
     else pyInt (v' / step)) =
      min ⌊v' / step⌋ (2 ^ DAC_BITS_RES - 1) := by
  rw [pyInt_of_nonneg (div_nonneg hv hs.le), ite_gt_eq_min]

theorem vdac_internal_eq (voltage vref : ℚ) (h : 0 < vref) :
    vdac_to_hex voltage vref VREF_INTERNAL =
      min ⌊max 0 (min voltage (2 * vref)) / (2 * vref / 2 ^ DAC_BITS_RES)⌋
        (2 ^ DAC_BITS_RES - 1) := by
  have hstep : (0 : ℚ) < 2 * vref / 2 ^ DAC_BITS_RES := by positivity
  have c2 : (VREF_INTERNAL = VREF_EXTERNAL ∧ voltage > vref) = False :=
    eq_false fun hc => (by decide : VREF_INTERNAL ≠ VREF_EXTERNAL) hc.1
  have cstep : (VREF_INTERNAL = "internal") = True := eq_true rfl
  simp only [vdac_to_hex, c2, cstep, if_true, if_false, eq_self_iff_true,
    true_and]
  by_cases h1 : voltage > 2 * vref
  · rw [if_pos h1, vdac_branch _ _ (by positivity) hstep,
      min_eq_right h1.le, max_eq_right (by positivity : (0 : ℚ) ≤ 2 * vref)]
  · rw [if_neg h1]
    by_cases h2 : voltage < 0
    · rw [if_pos h2, vdac_branch _ _ le_rfl hstep,
        min_eq_left (le_of_not_lt h1), max_eq_left h2.le]
    · rw [if_neg h2, vdac_branch _ _ (not_lt.1 h2) hstep,
        min_eq_left (le_of_not_lt h1), max_eq_right (not_lt.1 h2)]

theorem vdac_external_eq (voltage vref : ℚ) (h : 0 < vref) :
    vdac_to_hex voltage vref VREF_EXTERNAL =
      min ⌊max 0 (min voltage vref) / (vref / 2 ^ DAC_BITS_RES)⌋
        (2 ^ DAC_BITS_RES - 1) := by
  have hstep : (0 : ℚ) < vref / 2 ^ DAC_BITS_RES := by positivity
  have c1 : (VREF_EXTERNAL = VREF_INTERNAL ∧ voltage > 2 * vref) = False :=
    eq_false fun hc => (by decide : VREF_EXTERNAL ≠ VREF_INTERNAL) hc.1
  have cstep : (VREF_EXTERNAL = "internal") = False :=
    eq_false (by decide : VREF_EXTERNAL ≠ "internal")
  simp only [vdac_to_hex, c1, cstep, if_true, if_false, eq_self_iff_true,
    true_and]
  by_cases h1 : voltage > vref
  · rw [if_pos h1, vdac_branch _ _ h.le hstep,
      min_eq_right h1.le, max_eq_right h.le]
  · rw [if_neg h1]
    by_cases h2 : voltage < 0
    · rw [if_pos h2, vdac_branch _ _ le_rfl hstep,
        min_eq_left (le_of_not_lt h1), max_eq_left h2.le]
    · rw [if_neg h2, vdac_branch _ _ (not_lt.1 h2) hstep,
        min_eq_left (le_of_not_lt h1), max_eq_right (not_lt.1 h2)]

/-- C8: `vdac_to_hex` clamps the voltage to `[0, 2·vref]` (internal) or
`[0, vref]` (external), then truncates `voltage/step` with
`step = range/2^DAC_BITS_RES` and clamps the code to `2^DAC_BITS_RES - 1`;
in particular 5 V against the 1.25 V internal reference gives the full-scale
code `2^DAC_BITS_RES - 1`. -/
theorem vdac_to_hex_spec (voltage vref : ℚ) (h : 0 < vref) :
    vdac_to_hex voltage vref VREF_INTERNAL =
      min ⌊max 0 (min voltage (2 * vref)) / (2 * vref / 2 ^ DAC_BITS_RES)⌋
        (2 ^ DAC_BITS_RES - 1) ∧
    vdac_to_hex voltage vref VREF_EXTERNAL =
      min ⌊max 0 (min voltage vref) / (vref / 2 ^ DAC_BITS_RES)⌋
        (2 ^ DAC_BITS_RES - 1) ∧
    vdac_to_hex 5 VOLTAGE_REF VREF_INTERNAL = 2 ^ DAC_BITS_RES - 1 := by
  refine ⟨vdac_internal_eq voltage vref h, vdac_external_eq voltage vref h, ?_⟩
  rw [VOLTAGE_REF, vdac_internal_eq 5 (5 / 4) (by norm_num), DAC_BITS_RES]
  norm_num

theorem vdac_to_hex_spec_witness :
    (0 : ℚ) < 5 / 4 ∧
    vdac_to_hex 5 VOLTAGE_REF VREF_INTERNAL = 2 ^ DAC_BITS_RES - 1 :=
  ⟨by norm_num, (vdac_to_hex_spec 5 (5 / 4) (by norm_num)).2.2⟩

/-- C1: decoding (as `read_pulse_defn` decodes one quadruple) the four
register values produced by `entry_pulse_defn(entry, startTime, waveId,
gain, timeFactor, sustain)` recovers the start time, wave id and sustain
exactly, and the gain and time factor each within `2^-BIT_FRAC`, whenever
`PULSE_START_MIN ≤ startTime ≤ 0xFFFFFF`, the wave id fits 32 bits,
`0 < gain·2^BIT_FRAC_GAIN ≤ 0xFFFF`, `0 ≤ timeFactor·2^BIT_FRAC ≤ 0xFFFF`
and `0 ≤ sustain ≤ 0x1FFFF`. -/
theorem pulse_defn_roundtrip (e w t : ℤ) (g f : ℚ) (s : ℤ)
    (hw0 : 0 ≤ w) (hw1 : w < 2 ^ 32)
    (ht0 : PULSE_START_MIN ≤ t) (ht1 : t ≤ 0xFFFFFF)
    (hg0 : 0 < g * 2 ^ BIT_FRAC_GAIN) (hg1 : g * 2 ^ BIT_FRAC_GAIN ≤ 0xFFFF)
    (hf0 : 0 ≤ f * 2 ^ BIT_FRAC) (hf1 : f * 2 ^ BIT_FRAC ≤ 0xFFFF)
    (hs0 : 0 ≤ s) (hs1 : s ≤ 0x1FFFF) :
    ((decode_pulse_defn ((entry_pulse_defn e w t g f s).map regValue) 0).start_time : ℤ) = t ∧
    ((decode_pulse_defn ((entry_pulse_defn e w t g f s).map regValue) 0).wave_id : ℤ) = w ∧
    ((decode_pulse_defn ((entry_pulse_defn e w t g f s).map regValue) 0).sustain : ℤ) = s ∧
    |(decode_pulse_defn ((entry_pulse_defn e w t g f s).map regValue) 0).scale_gain - g|
      ≤ 1 / 2 ^ BIT_FRAC ∧
    |(decode_pulse_defn ((entry_pulse_defn e w t g f s).map regValue) 0).scale_addr - f|
      ≤ 1 / 2 ^ BIT_FRAC := by
  have ht5 : (5 : ℤ) ≤ t := ht0
  have hcond : ¬(t < PULSE_START_MIN ∧ e = 0) := fun hc => absurd hc.1 (not_lt.2 ht0)
  have hgfl : pyInt (g * 2 ^ BIT_FRAC_GAIN) = ⌊g * 2 ^ BIT_FRAC_GAIN⌋ :=
    pyInt_of_nonneg hg0.le
  have hffl : pyInt (f * 2 ^ BIT_FRAC) = ⌊f * 2 ^ BIT_FRAC⌋ := pyInt_of_nonneg hf0
  have hgi0 : 0 ≤ pyInt (g * 2 ^ BIT_FRAC_GAIN) := by
    rw [hgfl]
    exact Int.le_floor.2 (by exact_mod_cast hg0.le)
  have hgi1 : pyInt (g * 2 ^ BIT_FRAC_GAIN) ≤ 65535 := by
    rw [hgfl]
    exact_mod_cast le_trans (Int.floor_le _) hg1
  have hfi0 : 0 ≤ pyInt (f * 2 ^ BIT_FRAC) := by
    rw [hffl]
    exact Int.le_floor.2 (by exact_mod_cast hf0)
  have hfi1 : pyInt (f * 2 ^ BIT_FRAC) ≤ 65535 := by
    rw [hffl]
    exact_mod_cast le_trans (Int.floor_le _) hf1
  have hmap : (entry_pulse_defn e w t g f s).map regValue =
      [t.toNat, w.toNat,
       (pyInt (g * 2 ^ BIT_FRAC_GAIN) * 2 ^ 16 + pyInt (f * 2 ^ BIT_FRAC)).toNat,
       s.toNat] := by
    simp only [entry_pulse_defn, if_neg hcond, List.map_cons, List.map_nil,
      regValue]
    have e0 : ((t % 2 ^ 24) % 2 ^ 32).toNat = t.toNat := by omega
    have e1 : (w % 2 ^ 32).toNat = w.toNat := by omega
    have e2 : (((pyInt (g * 2 ^ BIT_FRAC_GAIN) % 2 ^ 16) * 2 ^ 16
        + pyInt (f * 2 ^ BIT_FRAC) % 2 ^ 16) % 2 ^ 32).toNat =
        (pyInt (g * 2 ^ BIT_FRAC_GAIN) * 2 ^ 16 + pyInt (f * 2 ^ BIT_FRAC)).toNat := by
      omega
    have e3 : ((s % 2 ^ 17) % 2 ^ 32).toNat = s.toNat := by omega
    rw [e0, e1, e2, e3]
  rw [hmap]
  simp only [decode_pulse_defn, List.getD_cons_zero, List.getD_cons_succ]
  have hv2 : (pyInt (g * 2 ^ BIT_FRAC_GAIN) * 2 ^ 16 + pyInt (f * 2 ^ BIT_FRAC)).toNat
      = (pyInt (g * 2 ^ BIT_FRAC_GAIN)).toNat * 2 ^ 16
        + (pyInt (f * 2 ^ BIT_FRAC)).toNat := by
    omega
  have hdiv : ((pyInt (g * 2 ^ BIT_FRAC_GAIN)).toNat * 2 ^ 16
      + (pyInt (f * 2 ^ BIT_FRAC)).toNat) / 2 ^ 16 % 2 ^ 16
      = (pyInt (g * 2 ^ BIT_FRAC_GAIN)).toNat := by
    omega
  have hmod : ((pyInt (g * 2 ^ BIT_FRAC_GAIN)).toNat * 2 ^ 16
      + (pyInt (f * 2 ^ BIT_FRAC)).toNat) % 2 ^ 16
      = (pyInt (f * 2 ^ BIT_FRAC)).toNat := by
    omega
  rw [hv2, hdiv, hmod]
  have hBG : (2 : ℚ) ^ BIT_FRAC_GAIN = 32768 := by
    norm_num [BIT_FRAC_GAIN, C_BITS_GAIN_FACTOR]
  have hBF : (2 : ℚ) ^ BIT_FRAC = 256 := by norm_num [BIT_FRAC]
  refine ⟨by omega, by omega, by omega, ?_, ?_⟩
  · have hQ : (((pyInt (g * 2 ^ BIT_FRAC_GAIN)).toNat : ℚ)) =
        ((pyInt (g * 2 ^ BIT_FRAC_GAIN) : ℤ) : ℚ) := by
      exact_mod_cast congrArg (fun z : ℤ => (z : ℚ)) (Int.toNat_of_nonneg hgi0)
    rw [hQ, hgfl, hBG, hBF]
    rw [hBG] at hg0 hg1
    have h1 : (⌊g * 32768⌋ : ℚ) ≤ g * 32768 := Int.floor_le _
    have h2 : g * 32768 < ⌊g * 32768⌋ + 1 := Int.lt_floor_add_one _
    rw [abs_le]
    constructor
    · linarith
    · linarith
  · have hQ : (((pyInt (f * 2 ^ BIT_FRAC)).toNat : ℚ)) =
        ((pyInt (f * 2 ^ BIT_FRAC) : ℤ) : ℚ) := by
      exact_mod_cast congrArg (fun z : ℤ => (z : ℚ)) (Int.toNat_of_nonneg hfi0)
    rw [hQ, hffl, hBF]
    rw [hBF] at hf0 hf1
    have h1 : (⌊f * 256⌋ : ℚ) ≤ f * 256 := Int.floor_le _
    have h2 : f * 256 < ⌊f * 256⌋ + 1 := Int.lt_floor_add_one _
    rw [abs_le]
    constructor
    · linarith
    · linarith

theorem pulse_defn_roundtrip_witness :
    PULSE_START_MIN ≤ (5 : ℤ) ∧
    (((decode_pulse_defn ((entry_pulse_defn 0 1 5 1 1 0).map regValue) 0).start_time : ℤ) = 5 ∧
      ((decode_pulse_defn ((entry_pulse_defn 0 1 5 1 1 0).map regValue) 0).wave_id : ℤ) = 1 ∧
      ((decode_pulse_defn ((entry_pulse_defn 0 1 5 1 1 0).map regValue) 0).sustain : ℤ) = 0 ∧
      |(decode_pulse_defn ((entry_pulse_defn 0 1 5 1 1 0).map regValue) 0).scale_gain - 1|
        ≤ 1 / 2 ^ BIT_FRAC ∧
      |(decode_pulse_defn ((entry_pulse_defn 0 1 5 1 1 0).map regValue) 0).scale_addr - 1|
        ≤ 1 / 2 ^ BIT_FRAC) :=
  ⟨by decide,
   pulse_defn_roundtrip 0 1 5 1 1 0 (by norm_num) (by norm_num) (by decide)
     (by norm_num) (by norm_num [BIT_FRAC_GAIN, C_BITS_GAIN_FACTOR])
     (by norm_num [BIT_FRAC_GAIN, C_BITS_GAIN_FACTOR]) (by norm_num [BIT_FRAC])
     (by norm_num [BIT_FRAC]) (by norm_num) (by norm_num)⟩

end Qlaser
